import Mathlib

/-!
Verification of `src/runtime.ts` of aws-lambda-runtime-deno, a custom AWS
Lambda runtime client for Deno.  The development shallowly embeds the
runtime's pure computations (error-payload shaping, header defaulting,
request-body construction) as Lean functions and the effectful poll /
dispatch / report loop of `start` as a trace-producing step function over
oracles that decide the outcome of each network call and handler invocation.

JSON values are modelled by the inductive `Json` below.  The platform
builtins `JSON.stringify` and `JSON.parse` (which the source calls but does
not define) are modelled by `stringify` / `parseJson`; the model restricts
JSON numbers to integers (the payloads the claims exercise) and `parseJson`
does not skip whitespace, which the output of `stringify` never contains.
-/

/-- A JSON value: the model of the `unknown` payloads (events, handler
results, error payloads) that flow through the runtime.  Numbers are
modelled as integers. -/
inductive Json where
  | null
  | bool (b : Bool)
  | num (n : Int)
  | str (s : String)
  | arr (items : List Json)
  | obj (fields : List (String × Json))
deriving Repr

/-- The decimal digit character for `d < 10` (code point 48 + d). -/
def digitChar (d : Nat) : Char := Char.ofNat (48 + d)

/-- Decimal digits of `n`, most significant first; the digit run that
`String(n)` / template interpolation produces for a natural number in JS. -/
def natChars (n : Nat) : List Char :=
  if n < 10 then [digitChar n]
  else natChars (n / 10) ++ [digitChar (n % 10)]
termination_by n
decreasing_by
  simp only [not_lt] at *
  omega

/-- Decimal notation of an integer: optional minus sign, then digits.
Models the string JS produces for an integral number. -/
def intChars (i : Int) : List Char :=
  if i < 0 then '-' :: natChars i.natAbs else natChars i.natAbs

/-- Lowercase hexadecimal digit for `d < 16`, as `Number.prototype.toString(16)`
produces inside `\u00xy` escapes. -/
def hexDigit (d : Nat) : Char :=
  if d < 10 then Char.ofNat (48 + d) else Char.ofNat (87 + d)

/-- JSON escaping of one character, exactly the cases `JSON.stringify` quotes:
the double quote, the backslash, the named control escapes, a `\u00xy` escape
for the remaining control characters, and everything else verbatim. -/
def escChar (c : Char) : List Char :=
  if c = '\"' then ['\\', '\"']
  else if c = '\\' then ['\\', '\\']
  else if c = '\x08' then ['\\', 'b']
  else if c = '\t' then ['\\', 't']
  else if c = '\n' then ['\\', 'n']
  else if c = '\x0c' then ['\\', 'f']
  else if c = '\r' then ['\\', 'r']
  else if c.toNat < 32 then
    ['\\', 'u', '0', '0', hexDigit (c.toNat / 16), hexDigit (c.toNat % 16)]
  else [c]

/-- JSON escaping of a character sequence. -/
def escapeList : List Char → List Char
  | [] => []
  | c :: cs => escChar c ++ escapeList cs

/-- A JSON string literal: quote, escaped content, quote. -/
def quoteChars (s : String) : List Char :=
  '\"' :: (escapeList s.data ++ ['\"'])

mutual
/-- The characters `JSON.stringify` produces for a value (no whitespace). -/
def jsonChars : Json → List Char
  | .null => "null".data
  | .bool true => "true".data
  | .bool false => "false".data
  | .num i => intChars i
  | .str s => quoteChars s
  | .arr items => '\x5b' :: (sepItems items ++ ['\x5d'])
  | .obj fields => '\x7b' :: (sepFields fields ++ ['\x7d'])
/-- Comma-separated renderings of array items. -/
def sepItems : List Json → List Char
  | [] => []
  | [v] => jsonChars v
  | v :: vs => jsonChars v ++ ',' :: sepItems vs
/-- Comma-separated renderings of object members (`"key":value`). -/
def sepFields : List (String × Json) → List Char
  | [] => []
  | [(k, v)] => quoteChars k ++ ':' :: jsonChars v
  | (k, v) :: fs => quoteChars k ++ ':' :: jsonChars v ++ ',' :: sepFields fs
end

/-- The model of `JSON.stringify` (integer numbers, no whitespace). -/
def stringify (v : Json) : String := String.mk (jsonChars v)

/-- Is `c` a decimal digit character. -/
def isDigitChar (c : Char) : Bool := 48 ≤ c.toNat && c.toNat ≤ 57

/-- The natural number denoted by a digit run (most significant first). -/
def digitsVal (ds : List Char) : Nat :=
  ds.foldl (fun a c => a * 10 + (c.toNat - 48)) 0

/-- Split off the maximal leading run of decimal digits. -/
def takeDigitRun : List Char → List Char × List Char
  | [] => ([], [])
  | c :: cs =>
    if isDigitChar c then
      let p := takeDigitRun cs
      (c :: p.1, p.2)
    else ([], c :: cs)

/-- Parse an optionally-signed decimal integer from the front of the input.
Models the number grammar of `JSON.parse` restricted to integers. -/
def parseIntPart (cs : List Char) : Option (Int × List Char) :=
  if cs.head? = some '-' then
    let p := takeDigitRun cs.tail
    if p.1.isEmpty then none else some (-(digitsVal p.1 : Int), p.2)
  else
    let p := takeDigitRun cs
    if p.1.isEmpty then none else some ((digitsVal p.1 : Int), p.2)

/-- The value of a hexadecimal digit character, if it is one. -/
def hexNib (c : Char) : Option Nat :=
  if 48 ≤ c.toNat ∧ c.toNat ≤ 57 then some (c.toNat - 48)
  else if 97 ≤ c.toNat ∧ c.toNat ≤ 102 then some (c.toNat - 87)
  else if 65 ≤ c.toNat ∧ c.toNat ≤ 70 then some (c.toNat - 55)
  else none

/-- The character a single-letter JSON escape denotes, if valid. -/
def unescChar (c : Char) : Option Char :=
  if c = '\"' then some '\"'
  else if c = '\\' then some '\\'
  else if c = '/' then some '/'
  else if c = 'b' then some '\x08'
  else if c = 'f' then some '\x0c'
  else if c = 'n' then some '\n'
  else if c = 'r' then some '\r'
  else if c = 't' then some '\t'
  else none

/-- Parse the body of a JSON string literal (after the opening quote) up to
and including the closing quote, undoing escapes; returns the content
characters and the remaining input. -/
def parseQuoted : List Char → Option (List Char × List Char)
  | [] => none
  | '\\' :: 'u' :: a :: b :: x :: y :: rest =>
    match hexNib a, hexNib b, hexNib x, hexNib y with
    | some h1, some h2, some h3, some h4 =>
      (parseQuoted rest).map
        (fun p => (Char.ofNat (((h1 * 16 + h2) * 16 + h3) * 16 + h4) :: p.1, p.2))
    | _, _, _, _ => none
  | '\\' :: e :: rest =>
    match unescChar e with
    | some ch => (parseQuoted rest).map (fun p => (ch :: p.1, p.2))
    | none => none
  | c :: rest =>
    if c = '\"' then some ([], rest)
    else (parseQuoted rest).map (fun p => (c :: p.1, p.2))

/-- Strip an expected literal character sequence from the input. -/
def stripToken : List Char → List Char → Option (List Char)
  | [], cs => some cs
  | _ :: _, [] => none
  | p :: ps, c :: cs => if c = p then stripToken ps cs else none

mutual
/-- Parse one JSON value from the front of the input.  `fuel` bounds the
recursion; `parseJson` supplies more fuel than any input can consume. -/
def parseValue : Nat → List Char → Option (Json × List Char)
  | 0, _ => none
  | _ + 1, [] => none
  | fuel + 1, c :: r =>
    if c = 'n' then (stripToken ['u', 'l', 'l'] r).map (fun rest => (.null, rest))
    else if c = 't' then (stripToken ['r', 'u', 'e'] r).map (fun rest => (.bool true, rest))
    else if c = 'f' then (stripToken ['a', 'l', 's', 'e'] r).map (fun rest => (.bool false, rest))
    else if c = '\"' then (parseQuoted r).map (fun p => (.str (String.mk p.1), p.2))
    else if c = '\x5b' then
      if r.head? = some '\x5d' then some (.arr [], r.tail)
      else (parseItems fuel r).map (fun p => (.arr p.1, p.2))
    else if c = '\x7b' then
      if r.head? = some '\x7d' then some (.obj [], r.tail)
      else (parseFields fuel r).map (fun p => (.obj p.1, p.2))
    else if c = '-' ∨ isDigitChar c then
      (parseIntPart (c :: r)).map (fun p => (.num p.1, p.2))
    else none
/-- Parse one or more comma-separated array items and the closing bracket. -/
def parseItems : Nat → List Char → Option (List Json × List Char)
  | 0, _ => none
  | fuel + 1, cs =>
    match parseValue fuel cs with
    | none => none
    | some (v, r) =>
      if r.head? = some ',' then
        (parseItems fuel r.tail).map (fun p => (v :: p.1, p.2))
      else if r.head? = some '\x5d' then some ([v], r.tail)
      else none
/-- Parse one or more comma-separated object members and the closing brace. -/
def parseFields : Nat → List Char → Option (List (String × Json) × List Char)
  | 0, _ => none
  | fuel + 1, cs =>
    if cs.head? = some '\"' then
      match parseQuoted cs.tail with
      | none => none
      | some (kcs, r1) =>
        if r1.head? = some ':' then
          match parseValue fuel r1.tail with
          | none => none
          | some (v, r3) =>
            if r3.head? = some ',' then
              (parseFields fuel r3.tail).map
                (fun p => ((String.mk kcs, v) :: p.1, p.2))
            else if r3.head? = some '\x7d' then
              some ([(String.mk kcs, v)], r3.tail)
            else none
        else none
    else none
end

/-- The model of `JSON.parse`: parse a complete document with no trailing
characters (integer numbers; no whitespace tolerance, which the claims never
exercise); `none` models the `SyntaxError` throw. -/
def parseJson (s : String) : Option Json :=
  match parseValue (s.data.length + 1) s.data with
  | some (v, []) => some v
  | _ => none

/-- The model of `Number(s)` restricted to the strings the runtime feeds it:
`""` is 0 (JS coercion), an optionally-signed all-digit string is its value,
and anything else is NaN, modelled as `none`.  (Fractional and exponent
notations are outside the model; the runtime only parses back its own
`Date.now()`-derived integer strings on the claimed paths.) -/
def jsNumber (s : String) : Option Int :=
  if s.data = [] then some 0
  else if s.data.head? = some '-' then
    if s.data.tail ≠ [] ∧ s.data.tail.all isDigitChar then
      some (-(digitsVal s.data.tail : Int))
    else none
  else if s.data.all isDigitChar then some ((digitsVal s.data : Int))
  else none

/-! ## Thrown values and error payloads (`toErrorPayload`) -/

/-- JS whitespace as `String.prototype.trim` removes it (ASCII subset; the
runtime only trims stack-trace lines produced by the platform). -/
def isJsWs (c : Char) : Bool :=
  c = ' ' || c = '\t' || c = '\n' || c = '\r' || c = '\x0b' || c = '\x0c'

/-- Model of `String.prototype.trim`: drop whitespace from both ends. -/
def jsTrim (s : String) : String :=
  String.mk (((s.data.dropWhile isJsWs).reverse.dropWhile isJsWs).reverse)

/-- Split a character list at each newline; splitting the empty list gives
one empty group, as `"".split("\n")` is `[""]` in JS. -/
def splitNlChars : List Char → List (List Char)
  | [] => [[]]
  | c :: rest =>
    if c = '\n' then [] :: splitNlChars rest
    else
      match splitNlChars rest with
      | [] => [[c]]
      | g :: gs => (c :: g) :: gs

/-- Model of `String.prototype.split("\n")`. -/
def jsSplitNl (s : String) : List String := (splitNlChars s.data).map String.mk

/-- A JS `Error` instance as `toErrorPayload` consumes it: `name`, `message`,
and the optional `stack` string the platform attached. -/
structure JsError where
  name : String
  message : String
  stack : Option String
deriving DecidableEq, Repr

/-- A thrown JS value: either an `Error` instance, or a non-error value
carried as its `String(err)` coercion together with the `stack` the platform
gives the `new Error(String(err))` the source then builds. -/
inductive JsValue where
  | error (e : JsError)
  | notError (stringRep : String) (newStack : Option String)
deriving DecidableEq, Repr

/-- The wire shape of a reported error. -/
structure ErrorPayload where
  errorType : String
  errorMessage : String
  stackTrace : List String
deriving DecidableEq, Repr

/-- Model of `toErrorPayload`: wrap a non-error value in `new Error(String(err))`,
then take `name || "Error"`, the message, and `(stack ?? "")` split on newlines
with each line trimmed. -/
def toErrorPayload (v : JsValue) : ErrorPayload :=
  let e : JsError :=
    match v with
    | .error e => e
    | .notError s st => { name := "Error", message := s, stack := st }
  { errorType := if e.name = "" then "Error" else e.name
    errorMessage := e.message
    stackTrace := (jsSplitNl (e.stack.getD "")).map jsTrim }

/-- The JSON object `post` receives for an `ErrorPayload`. -/
def payloadJson (p : ErrorPayload) : Json :=
  .obj [("errorType", .str p.errorType),
        ("errorMessage", .str p.errorMessage),
        ("stackTrace", .arr (p.stackTrace.map .str))]

/-- Model of the body computation in `post`: a string payload is sent
verbatim, anything else is `JSON.stringify`-ed. -/
def postBody (payload : Json) : String :=
  match payload with
  | .str s => s
  | v => stringify v

/-! ## `getNext`: poll-response decoding and context construction -/

/-- The headers of one poll response; `none` is a `headers.get` null. -/
structure Headers where
  requestId : Option String
  traceId : Option String
  invokedArn : Option String
  deadlineMs : Option String
  clientContext : Option String
  identity : Option String
deriving DecidableEq, Repr

/-- What `getNext` returns on one cycle.  `requestId` stays an option: the
source's `!` on `headers.get("Lambda-Runtime-Aws-Request-Id")` is a
compile-time assertion that is erased at runtime, so a missing header flows
through as `null` rather than failing.  `deadlineMs : Option Int` carries the
`Number(...)` result, `none` modelling NaN. -/
structure NextInvocation where
  requestId : Option String
  invokedArn : Option String
  deadlineMs : Option Int
  clientContext : Option Json
  identity : Option Json
  event : Json
deriving Repr

/-- One poll attempt's outcome at the transport level: the fetch either
rejects or yields headers and a raw body string. -/
inductive FetchNext where
  | netFail
  | response (headers : Headers) (body : String)
deriving DecidableEq, Repr

/-- Decode an optional JSON-bearing header as the source does with
`h ? JSON.parse(h) : undefined`: JS-falsy (absent or empty) gives
`undefined`; otherwise a parse failure throws (outer `none`). -/
def parseOptHeader (h : Option String) : Option (Option Json) :=
  match h with
  | none => some none
  | some s => if s = "" then some none else (parseJson s).map some

/-- Model of `getNext` (after the fetch): read the headers, default the
deadline string to `Date.now() + 3000` interpolated and re-parsed with
`Number`, parse the body with `res.json()`, and parse the optional
client-context / identity headers.  `none` models a throw propagating out of
`getNext` (fetch rejection, body parse failure, or header parse failure). -/
def getNext (now : Int) (f : FetchNext) : Option NextInvocation :=
  match f with
  | .netFail => none
  | .response h body =>
    match parseJson body with
    | none => none
    | some ev =>
      match parseOptHeader h.clientContext with
      | none => none
      | some cc =>
        match parseOptHeader h.identity with
        | none => none
        | some idn =>
          some { requestId := h.requestId
                 invokedArn := h.invokedArn
                 deadlineMs := jsNumber
                   (h.deadlineMs.getD (String.mk (intChars (now + 3000))))
                 clientContext := cc
                 identity := idn
                 event := ev }

/-- The process-wide static metadata read from the environment. -/
structure Env where
  functionName : Option String
  functionVersion : Option String
  memoryLimitInMB : Option String
  logGroupName : Option String
  logStreamName : Option String
deriving DecidableEq, Repr

/-- The per-invocation context object `buildContext` constructs (its
`getRemainingTimeInMillis` closure is modelled by the function below, closed
over the stored `deadlineMs`). -/
structure Context where
  awsRequestId : Option String
  invokedFunctionArn : Option String
  deadlineMs : Option Int
  functionName : Option String
  functionVersion : Option String
  memoryLimitInMB : Option String
  logGroupName : Option String
  logStreamName : Option String
  clientContext : Option Json
  identity : Option Json
deriving Repr

/-- Model of `buildContext`. -/
def buildContext (env : Env) (base : NextInvocation) : Context :=
  { awsRequestId := base.requestId
    invokedFunctionArn := base.invokedArn
    deadlineMs := base.deadlineMs
    functionName := env.functionName
    functionVersion := env.functionVersion
    memoryLimitInMB := env.memoryLimitInMB
    logGroupName := env.logGroupName
    logStreamName := env.logStreamName
    clientContext := base.clientContext
    identity := base.identity }

/-- Model of the context's `getRemainingTimeInMillis()` closure evaluated when
`Date.now()` is `now`: `Math.max(0, deadlineMs - now)`, with a NaN deadline
(`none`) propagating to a NaN result. -/
def Context.getRemainingTimeInMillis (c : Context) (now : Int) : Option Int :=
  c.deadlineMs.map (fun d => max 0 (d - now))

/-! ## The `start` loop as a trace of issued requests -/

/-- Which per-invocation endpoint a report POST targets. -/
inductive Endpoint where
  | response
  | error
deriving DecidableEq, Repr

/-- One issued HTTP request of the loop, tagged with the iteration index:
the long-poll GET, or a report POST carrying the path's request-id segment
(`"null"` when the header was absent, by JS template interpolation) and the
body `post` sends. -/
inductive TraceEvent where
  | pollReq (i : Nat)
  | postReq (i : Nat) (requestId : String) (ep : Endpoint) (body : String)
deriving DecidableEq, Repr

/-- The `${next.requestId}` path segment: JS interpolates `null` as "null". -/
def ridString (r : Option String) : String := r.getD "null"

/-- The oracle deciding every environment interaction of a run: the poll
fetch outcome, the handler outcome (`Except.error` models a throw or
rejection), whether the response-endpoint POST rejects (and with what thrown
value), and whether the error-endpoint POST rejects. -/
structure Oracle where
  fetches : Nat → FetchNext
  handler : Nat → Except JsValue Json
  respondFail : Nat → Option JsValue
  respondErrorFails : Nat → Bool

/-- The report POSTs of iteration `i` once `getNext` succeeded, paired with
whether the iteration completes normally (so the loop continues): on handler
success `respond` POSTs to the response endpoint, and if that rejects the
`catch` issues an error-endpoint POST via `respondError`; on handler failure
only the error-endpoint POST is issued.  An error-endpoint POST rejection is
uncaught, ending the loop. -/
def iterReports (orc : Oracle) (i : Nat) (next : NextInvocation) :
    List TraceEvent × Bool :=
  let rid := ridString next.requestId
  match orc.handler i with
  | .ok out =>
    match orc.respondFail i with
    | none => ([.postReq i rid .response (postBody out)], true)
    | some e =>
      ([.postReq i rid .response (postBody out),
        .postReq i rid .error (postBody (payloadJson (toErrorPayload e)))],
       !orc.respondErrorFails i)
  | .error e =>
    ([.postReq i rid .error (postBody (payloadJson (toErrorPayload e)))],
     !orc.respondErrorFails i)

/-- The requests iteration `i` issues: the poll GET, then — unless `getNext`
threw — the report POSTs.  `now i` is `Date.now()` during the poll. -/
def iterEvents (orc : Oracle) (now : Nat → Int) (i : Nat) : List TraceEvent :=
  .pollReq i ::
    (match getNext (now i) (orc.fetches i) with
     | none => []
     | some next => (iterReports orc i next).1)

/-- Whether iteration `i` finishes without an uncaught throw, so the `for`
loop proceeds to iteration `i + 1`. -/
def iterContinues (orc : Oracle) (now : Nat → Int) (i : Nat) : Bool :=
  match getNext (now i) (orc.fetches i) with
  | none => false
  | some next => (iterReports orc i next).2

/-- The trace of requests the `for` loop of `start` issues, beginning at
iteration `i`, for up to `fuel` iterations (the loop itself is unbounded;
every finite prefix of a run is a `runTrace`). -/
def runTrace (orc : Oracle) (now : Nat → Int) : Nat → Nat → List TraceEvent
  | 0, _ => []
  | fuel + 1, i =>
    iterEvents orc now i ++
      (if iterContinues orc now i then runTrace orc now fuel (i + 1) else [])

/-! ## Startup (`start` before the loop) -/

/-- JS falsiness of `process.env` reads: absent or empty string. -/
def envFalsy : Option String → Bool
  | none => true
  | some s => s = ""

/-- Model of `reportInitError`: the number of init-error POSTs it issues.  It
returns without posting when `RUNTIME_API` is falsy, and otherwise posts once
inside a `try` that swallows the outcome, so it is total in `postFails`. -/
def reportInitError (runtimeApi : Option String) (postFails : Bool) : Nat :=
  if envFalsy runtimeApi then 0 else 1

/-- The observable outcome of `start`: either the startup branch ran
(init-error POST count, a diagnostic on standard error, `process.exit` code,
and the — empty — list of loop requests), or the loop was entered. -/
inductive StartResult where
  | exited (initErrorPosts : Nat) (stderrDiagnostic : Bool) (code : Nat)
      (events : List TraceEvent)
  | looping (events : List TraceEvent)
deriving DecidableEq, Repr

/-- Model of `start`: with a falsy `AWS_LAMBDA_RUNTIME_API` it best-effort
reports an init error, writes the diagnostic, and exits with status 1 before
any poll; otherwise it runs the loop (traced for `fuel` iterations). -/
def start (runtimeApi : Option String) (postFails : Bool) (orc : Oracle)
    (now : Nat → Int) (fuel : Nat) : StartResult :=
  if envFalsy runtimeApi then
    .exited (reportInitError runtimeApi postFails) true 1 []
  else
    .looping (runTrace orc now fuel 0)

/-! ## Auxiliary predicates and concrete fixtures -/

/-- The input does not begin with a decimal digit (so it cannot extend a
number parse). -/
def noDigitHead (cs : List Char) : Prop :=
  ∀ c, cs.head? = some c → isDigitChar c = false

/-- Whether a JSON value is a string (the `typeof payload === "string"` test
in `post`). -/
def Json.isString : Json → Bool
  | .str _ => true
  | _ => false

/-- Recognize a POST to the response endpoint of iteration `i`. -/
def isRespPost (i : Nat) : TraceEvent → Bool
  | .postReq j _ .response _ => j = i
  | _ => false

/-- Recognize a POST to the error endpoint of iteration `i`. -/
def isErrPost (i : Nat) : TraceEvent → Bool
  | .postReq j _ .error _ => j = i
  | _ => false

/-- A benign set of poll-response headers carrying request id `"r0"`. -/
def hdrs0 : Headers :=
  { requestId := some "r0", traceId := none, invokedArn := none,
    deadlineMs := some "9000", clientContext := none, identity := none }

/-- Poll-response headers with the request-id header missing. -/
def hdrsNoRid : Headers :=
  { requestId := none, traceId := none, invokedArn := none,
    deadlineMs := some "9000", clientContext := none, identity := none }

/-- Poll-response headers with the deadline header missing. -/
def hdrsNoDl : Headers :=
  { requestId := some "r0", traceId := none, invokedArn := none,
    deadlineMs := none, clientContext := none, identity := none }

/-- A decoded invocation with a concrete numeric deadline. -/
def next5000 : NextInvocation :=
  { requestId := some "r0", invokedArn := none, deadlineMs := some 5000,
    clientContext := none, identity := none, event := .null }

/-- The invocation `getNext` decodes from `hdrsNoDl` with body `"7"` at
`Date.now() = 5` (its deadline is the re-parsed default string). -/
def next9 : NextInvocation :=
  { requestId := some "r0", invokedArn := none,
    deadlineMs := jsNumber (String.mk (intChars (5 + 3000))),
    clientContext := none, identity := none, event := .num 7 }

/-- A sample thrown error value with no stack attached. -/
def errBoom : JsValue := .error { name := "E", message := "boom", stack := none }

/-- A constant clock. -/
def now0 : Nat → Int := fun _ => 0

/-- An empty static environment. -/
def env0 : Env :=
  { functionName := none, functionVersion := none, memoryLimitInMB := none,
    logGroupName := none, logStreamName := none }

/-- The invocation `getNext` decodes from `hdrs0` with body `"7"`. -/
def next0 : NextInvocation :=
  { requestId := some "r0", invokedArn := none, deadlineMs := some 9000,
    clientContext := none, identity := none, event := .num 7 }

/-- A run whose handler returns the boolean `true` and everything succeeds. -/
def boolResultOracle : Oracle :=
  { fetches := fun _ => .response hdrs0 "7"
    handler := fun _ => .ok (.bool true)
    respondFail := fun _ => none
    respondErrorFails := fun _ => false }

/-- A run in which every interaction succeeds (handler returns a string). -/
def okOracle : Oracle :=
  { fetches := fun _ => .response hdrs0 "7"
    handler := fun _ => .ok (.str "ok")
    respondFail := fun _ => none
    respondErrorFails := fun _ => false }

/-- A run whose handler throws and whose error-endpoint POST then fails. -/
def errPostFailOracle : Oracle :=
  { fetches := fun _ => .response hdrs0 "7"
    handler := fun _ => .error errBoom
    respondFail := fun _ => none
    respondErrorFails := fun _ => true }

/-- A run whose first poll response has a body that is not valid JSON. -/
def badBodyOracle : Oracle :=
  { fetches := fun _ => .response hdrs0 "\x7b"
    handler := fun _ => .ok (.str "ok")
    respondFail := fun _ => none
    respondErrorFails := fun _ => false }

/-- A successful run whose handler returns the bare string `"true"`. -/
def strResultOracle : Oracle :=
  { fetches := fun _ => .response hdrs0 "7"
    handler := fun _ => .ok (.str "true")
    respondFail := fun _ => none
    respondErrorFails := fun _ => false }

/-- A run whose poll responses lack the request-id header. -/
def noRidOracle : Oracle :=
  { fetches := fun _ => .response hdrsNoRid "7"
    handler := fun _ => .ok (.str "ok")
    respondFail := fun _ => none
    respondErrorFails := fun _ => false }

/-- A run whose handler succeeds but whose response-endpoint POST rejects,
followed by a rejection of the error-endpoint POST as well. -/
def dualFailOracle : Oracle :=
  { fetches := fun _ => .response hdrs0 "7"
    handler := fun _ => .ok (.str "ok")
    respondFail := fun _ => some errBoom
    respondErrorFails := fun _ => true }

/-- A run whose handler succeeds, whose response-endpoint POST rejects, and
whose error-endpoint POST succeeds. -/
def respFailOracle : Oracle :=
  { fetches := fun _ => .response hdrs0 "7"
    handler := fun _ => .ok (.str "ok")
    respondFail := fun _ => some errBoom
    respondErrorFails := fun _ => false }

/-! ## Lemmas: decimal rendering and parsing invert each other -/

theorem digitChar_spec (d : Nat) (h : d < 10) :
    (digitChar d).toNat = 48 + d ∧ isDigitChar (digitChar d) = true := by
  interval_cases d <;> exact ⟨by decide, by decide⟩

theorem isDigit_ne {c : Char} (x : Char) (h : isDigitChar c = true)
    (hx : isDigitChar x = false) : c ≠ x := by
  intro e
  rw [e, hx] at h
  cases h

theorem natChars_unfold (n : Nat) :
    natChars n = (if n < 10 then [] else natChars (n / 10)) ++ [digitChar (n % 10)] := by
  rw [natChars.eq_def]
  by_cases h : n < 10
  · simp [h, Nat.mod_eq_of_lt h]
  · simp [h]

theorem natChars_ne_nil (n : Nat) : natChars n ≠ [] := by
  rw [natChars_unfold]
  simp

theorem natChars_digits (n : Nat) : ∀ c ∈ natChars n, isDigitChar c = true := by
  induction n using Nat.strong_induction_on with
  | _ n ih =>
    rw [natChars_unfold]
    intro c hc
    rcases List.mem_append.mp hc with h | h
    · by_cases h10 : n < 10
      · simp [h10] at h
      · rw [if_neg h10] at h
        exact ih (n / 10) (Nat.div_lt_self (by omega) (by omega)) c h
    · rw [List.mem_singleton] at h
      rw [h]
      exact (digitChar_spec (n % 10) (Nat.mod_lt _ (by omega))).2

theorem digitsVal_append_one (xs : List Char) (c : Char) :
    digitsVal (xs ++ [c]) = digitsVal xs * 10 + (c.toNat - 48) := by
  simp [digitsVal, List.foldl_append]

theorem digitsVal_natChars (n : Nat) : digitsVal (natChars n) = n := by
  induction n using Nat.strong_induction_on with
  | _ n ih =>
    rw [natChars_unfold]
    by_cases h : n < 10
    · rw [if_pos h]
      simp only [List.nil_append]
      have := (digitChar_spec (n % 10) (Nat.mod_lt _ (by omega))).1
      simp [digitsVal, this]
      omega
    · rw [if_neg h, digitsVal_append_one,
        ih (n / 10) (Nat.div_lt_self (by omega) (by omega)),
        (digitChar_spec (n % 10) (Nat.mod_lt _ (by omega))).1]
      omega

theorem natChars_cons (n : Nat) :
    ∃ c t, natChars n = c :: t ∧ isDigitChar c = true := by
  match h : natChars n with
  | [] => exact absurd h (natChars_ne_nil n)
  | c :: t =>
    refine ⟨c, t, rfl, natChars_digits n c ?_⟩
    rw [h]
    exact List.mem_cons_self c t

theorem takeDigitRun_stop (cs : List Char) (h : noDigitHead cs) :
    takeDigitRun cs = ([], cs) := by
  match cs with
  | [] => rfl
  | c :: t =>
    have hc := h c rfl
    simp [takeDigitRun, hc]

theorem takeDigitRun_run (ds : List Char) (hds : ∀ c ∈ ds, isDigitChar c = true)
    (rest : List Char) (hrest : noDigitHead rest) :
    takeDigitRun (ds ++ rest) = (ds, rest) := by
  induction ds with
  | nil => simpa using takeDigitRun_stop rest hrest
  | cons c t ih =>
    have hc : isDigitChar c = true := hds c (List.mem_cons_self c t)
    have ht := ih (fun x hx => hds x (List.mem_cons_of_mem c hx))
    simp [takeDigitRun, hc, ht]

theorem intChars_ne_nil (i : Int) : intChars i ≠ [] := by
  rw [intChars]
  by_cases h : i < 0
  · simp [h]
  · simp [h, natChars_ne_nil]

theorem parseIntPart_intChars (i : Int) (rest : List Char) (hrest : noDigitHead rest) :
    parseIntPart (intChars i ++ rest) = some (i, rest) := by
  by_cases hneg : i < 0
  · have harg : intChars i ++ rest = '-' :: (natChars i.natAbs ++ rest) := by
      simp [intChars, hneg]
    rw [harg, parseIntPart]
    rw [if_pos (by rfl)]
    simp only [List.tail_cons]
    rw [takeDigitRun_run _ (natChars_digits _) _ hrest]
    simp only [List.isEmpty_eq_true]
    rw [if_neg (natChars_ne_nil _), digitsVal_natChars]
    have : (i.natAbs : Int) = -i := by omega
    rw [this]
    simp
  · obtain ⟨c, t, hct, hc⟩ := natChars_cons i.natAbs
    have harg : intChars i ++ rest = c :: (t ++ rest) := by
      simp [intChars, hneg, hct]
    rw [harg, parseIntPart]
    rw [if_neg (by
      simp only [List.head?_cons, Option.some.injEq]
      exact isDigit_ne '-' hc (by decide))]
    have hrun : takeDigitRun (c :: (t ++ rest)) = (c :: t, rest) := by
      have := takeDigitRun_run (c :: t) (by
        intro x hx
        exact natChars_digits i.natAbs x (hct ▸ hx)) rest hrest
      simpa using this
    rw [hrun]
    simp only [List.isEmpty_cons]
    rw [if_neg (by simp)]
    have : digitsVal (c :: t) = i.natAbs := by
      rw [← hct, digitsVal_natChars]
    rw [this]
    have : (i.natAbs : Int) = i := by omega
    rw [this]

theorem jsNumber_intChars (i : Int) : jsNumber (String.mk (intChars i)) = some i := by
  have hdata : (String.mk (intChars i)).data = intChars i := rfl
  rw [jsNumber, hdata]
  rw [if_neg (intChars_ne_nil i)]
  by_cases hneg : i < 0
  · have harg : intChars i = '-' :: natChars i.natAbs := by simp [intChars, hneg]
    rw [harg]
    rw [if_pos (by rfl)]
    rw [if_pos (by
      refine ⟨by simp [natChars_ne_nil], ?_⟩
      rw [List.all_eq_true]
      intro c hc
      exact natChars_digits _ c hc)]
    simp only [List.tail_cons]
    rw [digitsVal_natChars]
    congr 1
    omega
  · obtain ⟨c, t, hct, hc⟩ := natChars_cons i.natAbs
    have harg : intChars i = natChars i.natAbs := by simp [intChars, hneg]
    rw [harg, hct]
    rw [if_neg (by
      simp only [List.head?_cons, Option.some.injEq]
      exact isDigit_ne '-' hc (by decide))]
    rw [if_pos (by
      rw [List.all_eq_true]
      intro x hx
      exact natChars_digits i.natAbs x (hct ▸ hx))]
    rw [← hct, digitsVal_natChars]
    congr 1
    omega

/-! ## Lemmas: string escaping and parsing invert each other -/

theorem hexNib_hexDigit (d : Nat) (h : d < 16) : hexNib (hexDigit d) = some d := by
  interval_cases d <;> decide

theorem parseQuoted_escChar (c : Char) (t : List Char) :
    parseQuoted (escChar c ++ t) = (parseQuoted t).map (fun p => (c :: p.1, p.2)) := by
  rw [escChar]
  by_cases h1 : c = '\"'
  · subst h1
    rfl
  rw [if_neg h1]
  by_cases h2 : c = '\\'
  · subst h2
    rfl
  rw [if_neg h2]
  by_cases h3 : c = '\x08'
  · subst h3
    rfl
  rw [if_neg h3]
  by_cases h4 : c = '\t'
  · subst h4
    rfl
  rw [if_neg h4]
  by_cases h5 : c = '\n'
  · subst h5
    rfl
  rw [if_neg h5]
  by_cases h6 : c = '\x0c'
  · subst h6
    rfl
  rw [if_neg h6]
  by_cases h7 : c = '\r'
  · subst h7
    rfl
  rw [if_neg h7]
  by_cases h8 : c.toNat < 32
  · rw [if_pos h8]
    have hhi : c.toNat / 16 < 16 := by omega
    have hlo : c.toNat % 16 < 16 := Nat.mod_lt _ (by omega)
    show parseQuoted ('\\' :: 'u' :: '0' :: '0'
        :: hexDigit (c.toNat / 16) :: hexDigit (c.toNat % 16) :: t) = _
    rw [parseQuoted]
    rw [show hexNib '0' = some 0 from rfl, hexNib_hexDigit _ hhi, hexNib_hexDigit _ hlo]
    dsimp only
    have harith : ((0 * 16 + 0) * 16 + c.toNat / 16) * 16 + c.toNat % 16 = c.toNat := by
      omega
    rw [harith, Char.ofNat_toNat]
  · rw [if_neg h8]
    show parseQuoted (c :: t) = _
    rw [parseQuoted.eq_def]
    simp [h1, h2]

theorem parseQuoted_escapeList (cs : List Char) (rest : List Char) :
    parseQuoted (escapeList cs ++ '\"' :: rest) = some (cs, rest) := by
  induction cs with
  | nil =>
    simp [escapeList, parseQuoted]
  | cons c t ih =>
    rw [escapeList, List.append_assoc, parseQuoted_escChar, ih]
    rfl

theorem parseQuoted_quote (s : String) (rest : List Char) :
    parseQuoted (escapeList s.data ++ '\"' :: rest) = some (s.data, rest) :=
  parseQuoted_escapeList s.data rest

theorem stripToken_self (ps : List Char) (cs : List Char) :
    stripToken ps (ps ++ cs) = some cs := by
  induction ps with
  | nil => rfl
  | cons p t ih => simp [stripToken, ih]

/-! ## Lemmas: the full value codec round-trip -/

theorem noDigitHead_nil : noDigitHead [] := by
  intro c h
  cases h

theorem noDigitHead_cons {c : Char} (h : isDigitChar c = false) (xs : List Char) :
    noDigitHead (c :: xs) := by
  intro d hd
  simp only [List.head?_cons, Option.some.injEq] at hd
  rw [← hd]
  exact h

theorem sepItems_one (v : Json) : sepItems [v] = jsonChars v := by
  rw [sepItems]

theorem sepItems_cons2 (v w : Json) (vs : List Json) :
    sepItems (v :: w :: vs) = jsonChars v ++ ',' :: sepItems (w :: vs) := by
  rw [sepItems]
  exact List.cons_ne_nil w vs

theorem sepFields_one (k : String) (v : Json) :
    sepFields [(k, v)] = quoteChars k ++ ':' :: jsonChars v := by
  rw [sepFields]

theorem sepFields_cons2 (k : String) (v : Json) (kw : String × Json)
    (fs : List (String × Json)) :
    sepFields ((k, v) :: kw :: fs)
      = quoteChars k ++ ':' :: jsonChars v ++ ',' :: sepFields (kw :: fs) := by
  rw [sepFields]
  exact List.cons_ne_nil kw fs

theorem jsonChars_head (v : Json) :
    ∃ c t, jsonChars v = c :: t ∧ c ≠ '\x5d' ∧ c ≠ '\x7d' := by
  cases v with
  | null => exact ⟨'n', _, by rw [jsonChars], by decide, by decide⟩
  | bool b =>
    cases b with
    | true => exact ⟨'t', _, by rw [jsonChars], by decide, by decide⟩
    | false => exact ⟨'f', _, by rw [jsonChars], by decide, by decide⟩
  | str s => exact ⟨'\"', _, by rw [jsonChars, quoteChars], by decide, by decide⟩
  | arr items => exact ⟨'\x5b', _, by rw [jsonChars], by decide, by decide⟩
  | obj fields => exact ⟨'\x7b', _, by rw [jsonChars], by decide, by decide⟩
  | num i =>
    by_cases hneg : i < 0
    · refine ⟨'-', natChars i.natAbs, ?_, by decide, by decide⟩
      rw [jsonChars]
      simp [intChars, hneg]
    · obtain ⟨c, t, hct, hc⟩ := natChars_cons i.natAbs
      refine ⟨c, t, ?_, isDigit_ne '\x5d' hc (by decide), isDigit_ne '\x7d' hc (by decide)⟩
      rw [jsonChars]
      simp [intChars, hneg, hct]

mutual
theorem rtValue : ∀ (v : Json) (fuel : Nat) (rest : List Char),
    (jsonChars v).length < fuel → noDigitHead rest →
    parseValue fuel (jsonChars v ++ rest) = some (v, rest)
  | .null, fuel, rest, hf, _ => by
    cases fuel with
    | zero => exact absurd hf (Nat.not_lt_zero _)
    | succ f =>
      rw [show jsonChars .null = ['n', 'u', 'l', 'l'] from by rw [jsonChars]]
      simp [parseValue, stripToken]
  | .bool true, fuel, rest, hf, _ => by
    cases fuel with
    | zero => exact absurd hf (Nat.not_lt_zero _)
    | succ f =>
      rw [show jsonChars (.bool true) = ['t', 'r', 'u', 'e'] from by rw [jsonChars]]
      simp [parseValue, stripToken]
  | .bool false, fuel, rest, hf, _ => by
    cases fuel with
    | zero => exact absurd hf (Nat.not_lt_zero _)
    | succ f =>
      rw [show jsonChars (.bool false) = ['f', 'a', 'l', 's', 'e'] from by rw [jsonChars]]
      simp [parseValue, stripToken]
  | .str s, fuel, rest, hf, _ => by
    cases fuel with
    | zero => exact absurd hf (Nat.not_lt_zero _)
    | succ f =>
      rw [show jsonChars (.str s) = quoteChars s from by rw [jsonChars]]
      rw [quoteChars]
      simp only [List.cons_append, List.append_assoc]
      simp [parseValue]
      rw [show escapeList s.data ++ ('\"' :: rest) = escapeList s.data ++ '\"' :: rest from rfl]
      rw [parseQuoted_escapeList]
      simp
  | .num i, fuel, rest, hf, hrest => by
    cases fuel with
    | zero => exact absurd hf (Nat.not_lt_zero _)
    | succ f =>
      rw [show jsonChars (.num i) = intChars i from by rw [jsonChars]]
      by_cases hneg : i < 0
      · have harg : intChars i ++ rest = '-' :: (natChars i.natAbs ++ rest) := by
          simp [intChars, hneg]
        rw [harg]
        simp only [parseValue]
        rw [if_neg (by decide), if_neg (by decide), if_neg (by decide), if_neg (by decide),
          if_neg (by decide), if_neg (by decide), if_pos (Or.inl trivial)]
        rw [← harg, parseIntPart_intChars i rest hrest]
        rfl
      · obtain ⟨c, t, hct, hc⟩ := natChars_cons i.natAbs
        have harg : intChars i ++ rest = c :: (t ++ rest) := by
          simp [intChars, hneg, hct]
        rw [harg]
        simp only [parseValue]
        rw [if_neg (isDigit_ne 'n' hc (by decide)), if_neg (isDigit_ne 't' hc (by decide)),
          if_neg (isDigit_ne 'f' hc (by decide)), if_neg (isDigit_ne '\"' hc (by decide)),
          if_neg (isDigit_ne '\x5b' hc (by decide)), if_neg (isDigit_ne '\x7b' hc (by decide)),
          if_pos (Or.inr hc)]
        rw [← harg, parseIntPart_intChars i rest hrest]
        rfl
  | .arr [], fuel, rest, hf, _ => by
    cases fuel with
    | zero => exact absurd hf (Nat.not_lt_zero _)
    | succ f =>
      rw [show jsonChars (.arr []) = ['\x5b', '\x5d'] from by simp [jsonChars, sepItems]]
      simp [parseValue]
  | .arr (e :: es), fuel, rest, hf, _ => by
    cases fuel with
    | zero => exact absurd hf (Nat.not_lt_zero _)
    | succ f =>
      rw [show jsonChars (.arr (e :: es)) = '\x5b' :: (sepItems (e :: es) ++ ['\x5d'])
        from by rw [jsonChars]] at hf ⊢
      have hlen : (sepItems (e :: es)).length + 1 < f := by
        simp only [List.length_cons, List.length_append, List.length_singleton] at hf
        omega
      have harg : ('\x5b' :: (sepItems (e :: es) ++ ['\x5d'])) ++ rest
          = '\x5b' :: (sepItems (e :: es) ++ '\x5d' :: rest) := by
        simp
      rw [harg]
      simp only [parseValue]
      rw [if_neg (by decide), if_neg (by decide), if_neg (by decide), if_neg (by decide),
        if_pos trivial]
      obtain ⟨c, t, hct, hc1, _⟩ := jsonChars_head e
      obtain ⟨tl, htl⟩ : ∃ tl, sepItems (e :: es) = jsonChars e ++ tl := by
        cases es with
        | nil => exact ⟨[], by rw [sepItems_one, List.append_nil]⟩
        | cons w vs => exact ⟨',' :: sepItems (w :: vs), sepItems_cons2 e w vs⟩
      have hhead : (sepItems (e :: es) ++ '\x5d' :: rest).head? ≠ some '\x5d' := by
        rw [htl, hct]
        simp only [List.cons_append, List.head?_cons]
        intro h
        exact hc1 (Option.some.inj h)
      rw [if_neg hhead, rtItems e es f rest hlen]
      rfl
  | .obj [], fuel, rest, hf, _ => by
    cases fuel with
    | zero => exact absurd hf (Nat.not_lt_zero _)
    | succ f =>
      rw [show jsonChars (.obj []) = ['\x7b', '\x7d'] from by simp [jsonChars, sepFields]]
      simp [parseValue]
  | .obj (kv :: fs), fuel, rest, hf, _ => by
    cases fuel with
    | zero => exact absurd hf (Nat.not_lt_zero _)
    | succ f =>
      rw [show jsonChars (.obj (kv :: fs)) = '\x7b' :: (sepFields (kv :: fs) ++ ['\x7d'])
        from by rw [jsonChars]] at hf ⊢
      have hlen : (sepFields (kv :: fs)).length + 1 < f := by
        simp only [List.length_cons, List.length_append, List.length_singleton] at hf
        omega
      have harg : ('\x7b' :: (sepFields (kv :: fs) ++ ['\x7d'])) ++ rest
          = '\x7b' :: (sepFields (kv :: fs) ++ '\x7d' :: rest) := by
        simp
      rw [harg]
      simp only [parseValue]
      rw [if_neg (by decide), if_neg (by decide), if_neg (by decide), if_neg (by decide),
        if_neg (by decide), if_pos trivial]
      have hhead : (sepFields (kv :: fs) ++ '\x7d' :: rest).head? ≠ some '\x7d' := by
        obtain ⟨k, v⟩ := kv
        obtain ⟨tl, htl⟩ : ∃ tl, sepFields ((k, v) :: fs) = quoteChars k ++ tl := by
          cases fs with
          | nil => exact ⟨':' :: jsonChars v, sepFields_one k v⟩
          | cons kw fs2 =>
            refine ⟨':' :: jsonChars v ++ ',' :: sepFields (kw :: fs2), ?_⟩
            rw [sepFields_cons2]
            simp
        rw [htl, quoteChars]
        simp only [List.cons_append, List.head?_cons, Option.some.injEq]
        decide
      rw [if_neg hhead, rtFields kv fs f rest hlen]
      rfl
termination_by v _ _ _ _ => sizeOf v
theorem rtItems : ∀ (e : Json) (es : List Json) (fuel : Nat) (rest : List Char),
    (sepItems (e :: es)).length + 1 < fuel →
    parseItems fuel (sepItems (e :: es) ++ '\x5d' :: rest) = some (e :: es, rest)
  | e, [], fuel, rest, hf => by
    cases fuel with
    | zero => exact absurd hf (Nat.not_lt_zero _)
    | succ f =>
      rw [sepItems_one] at hf ⊢
      have hv := rtValue e f ('\x5d' :: rest) (by omega)
        (noDigitHead_cons (by decide) rest)
      rw [parseItems, hv]
      simp
  | e, w :: vs, fuel, rest, hf => by
    cases fuel with
    | zero => exact absurd hf (Nat.not_lt_zero _)
    | succ f =>
      rw [sepItems_cons2] at hf ⊢
      simp only [List.length_append, List.length_cons] at hf
      have harg : (jsonChars e ++ ',' :: sepItems (w :: vs)) ++ '\x5d' :: rest
          = jsonChars e ++ ',' :: (sepItems (w :: vs) ++ '\x5d' :: rest) := by
        simp
      rw [harg]
      have hv := rtValue e f (',' :: (sepItems (w :: vs) ++ '\x5d' :: rest))
        (by omega) (noDigitHead_cons (by decide) _)
      rw [parseItems, hv]
      simp [rtItems w vs f rest (by omega)]
termination_by e es _ _ _ => sizeOf e + sizeOf es
theorem rtFields : ∀ (kv : String × Json) (fs : List (String × Json)) (fuel : Nat)
    (rest : List Char),
    (sepFields (kv :: fs)).length + 1 < fuel →
    parseFields fuel (sepFields (kv :: fs) ++ '\x7d' :: rest) = some (kv :: fs, rest)
  | (k, v), [], fuel, rest, hf => by
    cases fuel with
    | zero => exact absurd hf (Nat.not_lt_zero _)
    | succ f =>
      rw [sepFields_one] at hf ⊢
      simp only [quoteChars, List.length_append, List.length_cons] at hf
      have harg : (quoteChars k ++ ':' :: jsonChars v) ++ '\x7d' :: rest
          = '\"' :: (escapeList k.data ++ '\"' :: (':' :: (jsonChars v ++ '\x7d' :: rest))) := by
        rw [quoteChars]
        simp
      rw [harg]
      have hv := rtValue v f ('\x7d' :: rest) (by omega) (noDigitHead_cons (by decide) rest)
      rw [parseFields]
      simp [parseQuoted_escapeList, hv]
  | (k, v), kw :: fs2, fuel, rest, hf => by
    cases fuel with
    | zero => exact absurd hf (Nat.not_lt_zero _)
    | succ f =>
      rw [sepFields_cons2] at hf ⊢
      simp only [quoteChars, List.length_append, List.length_cons] at hf
      have harg : (quoteChars k ++ ':' :: jsonChars v ++ ',' :: sepFields (kw :: fs2))
            ++ '\x7d' :: rest
          = '\"' :: (escapeList k.data ++ '\"' :: (':' :: (jsonChars v
            ++ ',' :: (sepFields (kw :: fs2) ++ '\x7d' :: rest)))) := by
        rw [quoteChars]
        simp
      rw [harg]
      have hv := rtValue v f (',' :: (sepFields (kw :: fs2) ++ '\x7d' :: rest))
        (by omega) (noDigitHead_cons (by decide) _)
      rw [parseFields]
      simp [parseQuoted_escapeList, hv, rtFields kw fs2 f rest (by omega)]
termination_by kv fs _ _ _ => sizeOf kv + sizeOf fs
end

/-- The codec round-trip: parsing a stringified value recovers it exactly. -/
theorem parseJson_stringify (v : Json) : parseJson (stringify v) = some v := by
  have hv := rtValue v ((jsonChars v).length + 1) [] (by omega) noDigitHead_nil
  rw [List.append_nil] at hv
  rw [parseJson]
  rw [show (stringify v).data = jsonChars v from rfl]
  rw [hv]

/-! ## Lemmas: shape of the loop trace -/

theorem iterReports_post (orc : Oracle) (i : Nat) (next : NextInvocation) :
    ∀ ev ∈ (iterReports orc i next).1, ∃ rid ep body, ev = .postReq i rid ep body := by
  intro ev hev
  simp only [iterReports] at hev
  split at hev
  · split at hev
    · simp only [List.mem_singleton] at hev
      exact ⟨_, _, _, hev⟩
    · simp only [List.mem_cons, List.mem_singleton, List.not_mem_nil, or_false] at hev
      rcases hev with h | h
      · exact ⟨_, _, _, h⟩
      · exact ⟨_, _, _, h⟩
  · simp only [List.mem_singleton] at hev
    exact ⟨_, _, _, hev⟩

theorem pollReq_iterEvents {orc : Oracle} {now : Nat → Int} {i k : Nat}
    (h : TraceEvent.pollReq k ∈ iterEvents orc now i) : k = i := by
  rw [iterEvents] at h
  rcases List.mem_cons.mp h with h | h
  · injection h
  · revert h
    split
    · intro h
      cases h
    · intro h
      obtain ⟨rid, ep, body, heq⟩ := iterReports_post orc i _ _ h
      cases heq

theorem iterEvents_ends_report (orc : Oracle) (now : Nat → Int) (i : Nat)
    (h : iterContinues orc now i = true) :
    ∃ pre rid ep body, iterEvents orc now i = pre ++ [TraceEvent.postReq i rid ep body] := by
  rw [iterContinues] at h
  rw [iterEvents]
  cases hg : getNext (now i) (orc.fetches i) with
  | none =>
    rw [hg] at h
    exact Bool.noConfusion h
  | some next =>
    rw [hg] at h
    dsimp only at h ⊢
    cases hh : orc.handler i with
    | ok out =>
      cases hr : orc.respondFail i with
      | none =>
        exact ⟨[.pollReq i], ridString next.requestId, .response, postBody out,
          by simp [iterReports, hh, hr]⟩
      | some e =>
        exact ⟨[.pollReq i, .postReq i (ridString next.requestId) .response (postBody out)],
          ridString next.requestId, .error, postBody (payloadJson (toErrorPayload e)),
          by simp [iterReports, hh, hr]⟩
    | error e =>
      exact ⟨[.pollReq i], ridString next.requestId, .error,
        postBody (payloadJson (toErrorPayload e)), by simp [iterReports, hh]⟩

theorem runTrace_poll_after_report (orc : Oracle) (now : Nat → Int) :
    ∀ (fuel i m : Nat), i ≤ m →
    TraceEvent.pollReq (m + 1) ∈ runTrace orc now fuel i →
    ∃ pre rid ep body post,
      runTrace orc now fuel i = pre ++ TraceEvent.postReq m rid ep body :: post
      ∧ TraceEvent.pollReq (m + 1) ∈ post := by
  intro fuel
  induction fuel with
  | zero =>
    intro i m him h
    cases h
  | succ f ih =>
    intro i m him h
    rw [runTrace] at h ⊢
    rcases List.mem_append.mp h with hin | hin
    · have := pollReq_iterEvents hin
      omega
    · by_cases hc : iterContinues orc now i = true
      · rw [if_pos hc] at hin ⊢
        by_cases him2 : i = m
        · subst him2
          obtain ⟨pre, rid, ep, body, hev⟩ := iterEvents_ends_report orc now i hc
          refine ⟨pre, rid, ep, body, runTrace orc now f (i + 1), ?_, hin⟩
          rw [hev]
          simp
        · obtain ⟨pre, rid, ep, body, post, heq, hmem⟩ := ih (i + 1) m (by omega) hin
          refine ⟨iterEvents orc now i ++ pre, rid, ep, body, post, ?_, hmem⟩
          rw [heq]
          simp
      · rw [if_neg hc] at hin
        cases hin

/-! ## The claims -/

/-- C1: for every run, the poll request for invocation `m + 1` is issued only
after a report request for invocation `m` has been issued: wherever the
`m + 1` poll occurs in the trace, some report POST of iteration `m` occurs
strictly before it.  With the strictly sequential `await`s of the loop this
is the one-at-a-time guarantee: no two invocations are ever in flight. -/
theorem claim_C1_one_at_a_time (orc : Oracle) (now : Nat → Int) (fuel m : Nat)
    (h : TraceEvent.pollReq (m + 1) ∈ runTrace orc now fuel 0) :
    ∃ pre rid ep body post,
      runTrace orc now fuel 0 = pre ++ TraceEvent.postReq m rid ep body :: post
      ∧ TraceEvent.pollReq (m + 1) ∈ post :=
  runTrace_poll_after_report orc now fuel 0 m (Nat.zero_le m) h

/-- Witness for C1 at a concrete two-iteration run. -/
theorem claim_C1_witness :
    ∃ pre rid ep body post,
      runTrace okOracle now0 2 0 = pre ++ TraceEvent.postReq 0 rid ep body :: post
      ∧ TraceEvent.pollReq 1 ∈ post :=
  claim_C1_one_at_a_time okOracle now0 2 0 (by decide)

/-- C2 (amended): a failure of the response-endpoint POST is caught and
escalated into exactly one error-endpoint POST for the same request id (not
retried), and the loop proceeds to the next poll iff the error-endpoint POST
of the cycle does not itself fail; a failure of the error-endpoint POST is
uncaught and terminates the loop. -/
theorem claim_C2_report_failure_policy (orc : Oracle) (now : Nat → Int) (i : Nat)
    (next : NextInvocation)
    (hn : getNext (now i) (orc.fetches i) = some next) :
    (∀ out e, orc.handler i = .ok out → orc.respondFail i = some e →
      iterEvents orc now i =
        [.pollReq i, .postReq i (ridString next.requestId) .response (postBody out),
         .postReq i (ridString next.requestId) .error
           (postBody (payloadJson (toErrorPayload e)))]
      ∧ (iterContinues orc now i = true ↔ orc.respondErrorFails i = false))
    ∧ (∀ e, orc.handler i = .error e →
      iterEvents orc now i =
        [.pollReq i, .postReq i (ridString next.requestId) .error
          (postBody (payloadJson (toErrorPayload e)))]
      ∧ (iterContinues orc now i = true ↔ orc.respondErrorFails i = false)) := by
  constructor
  · intro out e hh hr
    constructor
    · simp [iterEvents, hn, iterReports, hh, hr]
    · simp [iterContinues, hn, iterReports, hh, hr]
  · intro e hh
    constructor
    · simp [iterEvents, hn, iterReports, hh]
    · simp [iterContinues, hn, iterReports, hh]

/-- Witness for C2 at a run whose response POST fails. -/
theorem claim_C2_witness :
    iterEvents respFailOracle now0 0 =
      [.pollReq 0, .postReq 0 "r0" .response "ok",
       .postReq 0 "r0" .error (postBody (payloadJson (toErrorPayload errBoom)))]
    ∧ (iterContinues respFailOracle now0 0 = true
        ↔ respFailOracle.respondErrorFails 0 = false) :=
  (claim_C2_report_failure_policy respFailOracle now0 0 next0 rfl).1
    (.str "ok") errBoom rfl rfl

/-- Counterexample to C2 as stated: in a run whose handler throws and whose
error-endpoint POST then fails, the loop terminates — the delivery failure is
escalated out of the loop and the next poll is never issued. -/
theorem claim_C2_counterexample :
    runTrace errPostFailOracle now0 2 0 =
      [.pollReq 0,
       .postReq 0 "r0" .error (postBody (payloadJson (toErrorPayload errBoom)))]
    ∧ TraceEvent.pollReq 1 ∉ runTrace errPostFailOracle now0 2 0 :=
  ⟨rfl, by decide⟩

/-- C3 (amended): a poll response whose body fails to parse as JSON makes
`getNext` throw before any dispatch; the exception is not caught in the loop,
so no report is issued for that cycle and the loop terminates — the cycle's
trace is the poll request alone. -/
theorem claim_C3_body_parse_failure (orc : Oracle) (now : Nat → Int) (fuel i : Nat)
    (h : Headers) (body : String)
    (hf : orc.fetches i = .response h body) (hp : parseJson body = none) :
    runTrace orc now (fuel + 1) i = [.pollReq i] := by
  have hg : getNext (now i) (orc.fetches i) = none := by
    simp [getNext, hf, hp]
  rw [runTrace]
  simp [iterEvents, iterContinues, hg]

/-- Witness for C3 at a run polling an invalid JSON body. -/
theorem claim_C3_witness : runTrace badBodyOracle now0 1 0 = [.pollReq 0] :=
  claim_C3_body_parse_failure badBodyOracle now0 0 0 hdrs0 "\x7b" rfl rfl

/-- Counterexample to C3 as stated: on an unparsable body the runtime issues
no error-endpoint POST for the cycle's request id and does not continue — the
whole trace is the one poll request. -/
theorem claim_C3_counterexample :
    parseJson "\x7b" = none
    ∧ runTrace badBodyOracle now0 2 0 = [.pollReq 0]
    ∧ TraceEvent.pollReq 1 ∉ runTrace badBodyOracle now0 2 0 :=
  ⟨rfl, rfl, by decide⟩

/-- C4: with the polling-endpoint configuration absent, `start` issues zero
init-error POSTs (reporting is infeasible without the endpoint, and
`reportInitError` swallows any outcome — it is total in `postFails`), writes
the diagnostic to standard error, exits with status 1 (non-zero), and issues
no poll request (the loop-event list is empty). -/
theorem claim_C4_fatal_startup (postFails : Bool) (orc : Oracle) (now : Nat → Int)
    (fuel : Nat) :
    start none postFails orc now fuel
      = .exited (reportInitError none postFails) true 1 []
    ∧ reportInitError none postFails ≤ 1
    ∧ (1 : Nat) ≠ 0 := by
  refine ⟨?_, ?_, by omega⟩
  · simp [start, envFalsy]
  · simp [reportInitError, envFalsy]

/-- C5 (amended): `toErrorPayload` of an error-like value uses its name
(defaulting to "Error" when the name is empty), its message, and its stack
split into trimmed lines — except that with no stack available the result is
the one-element sequence containing the empty string (splitting the empty
string), not the empty sequence; a non-error value yields errorType "Error"
with the value's string representation as the message. -/
theorem claim_C5_toErrorPayload (err : JsError) (s : String) (stk : Option String) :
    ((toErrorPayload (.error err)).errorType
        = (if err.name = "" then "Error" else err.name)
      ∧ (toErrorPayload (.error err)).errorMessage = err.message
      ∧ (∀ st, err.stack = some st →
          (toErrorPayload (.error err)).stackTrace = (jsSplitNl st).map jsTrim)
      ∧ (err.stack = none → (toErrorPayload (.error err)).stackTrace = [""]))
    ∧ (toErrorPayload (.notError s stk)).errorType = "Error"
    ∧ (toErrorPayload (.notError s stk)).errorMessage = s := by
  refine ⟨⟨rfl, rfl, ?_, ?_⟩, rfl, rfl⟩
  · intro st hst
    simp [toErrorPayload, hst]
  · intro hst
    simp [toErrorPayload, hst]
    rfl

/-- Witness for C5 at a concrete error and a concrete non-error throw. -/
theorem claim_C5_witness :
    (toErrorPayload (.error ⟨"TypeError", "m", some "a\n b"⟩)).stackTrace
        = (jsSplitNl "a\n b").map jsTrim
    ∧ (toErrorPayload (.error ⟨"TypeError", "m", none⟩)).stackTrace = [""]
    ∧ (toErrorPayload (.notError "oops" none)).errorType = "Error" :=
  ⟨(claim_C5_toErrorPayload ⟨"TypeError", "m", some "a\n b"⟩ "oops" none).1.2.2.1
      "a\n b" rfl,
   (claim_C5_toErrorPayload ⟨"TypeError", "m", none⟩ "oops" none).1.2.2.2 rfl,
   (claim_C5_toErrorPayload ⟨"TypeError", "m", none⟩ "oops" none).2.1⟩

/-- Counterexample to C5 as stated: with no stack available the payload's
`stackTrace` is `[""]` — `("" ).split("\n")` is a one-element sequence — and
not the empty sequence the claim requires. -/
theorem claim_C5_counterexample :
    (toErrorPayload (.error ⟨"TypeError", "m", none⟩)).stackTrace = [""]
    ∧ ([""] : List String) ≠ [] := by
  refine ⟨rfl, ?_⟩
  intro h
  cases h

/-- C6 (amended): when the handler of a reached invocation completes with
`out`, the iteration issues exactly one POST to the response endpoint of its
request id, whose body is `out` itself when `out` is a string and the JSON
serialization of `out` otherwise; for non-string `out` that body deserializes
back to a value equal to `out`. -/
theorem claim_C6_success_roundtrip (orc : Oracle) (now : Nat → Int) (i : Nat)
    (next : NextInvocation) (out : Json)
    (hn : getNext (now i) (orc.fetches i) = some next)
    (hh : orc.handler i = .ok out) :
    (iterEvents orc now i).filter (isRespPost i)
      = [.postReq i (ridString next.requestId) .response (postBody out)]
    ∧ (out.isString = false → parseJson (postBody out) = some out) := by
  constructor
  · cases hr : orc.respondFail i with
    | none => simp [iterEvents, hn, iterReports, hh, hr, isRespPost]
    | some e => simp [iterEvents, hn, iterReports, hh, hr, isRespPost]
  · intro hstr
    have hpb : postBody out = stringify out := by
      cases out with
      | str s => exact absurd hstr (by simp [Json.isString])
      | null => rfl
      | bool b => rfl
      | num n => rfl
      | arr items => rfl
      | obj fields => rfl
    rw [hpb]
    exact parseJson_stringify out

/-- Witness for C6 at a run whose handler returns the boolean `true`. -/
theorem claim_C6_witness :
    (iterEvents boolResultOracle now0 0).filter (isRespPost 0)
      = [.postReq 0 "r0" .response (postBody (.bool true))]
    ∧ parseJson (postBody (.bool true)) = some (.bool true) :=
  ⟨(claim_C6_success_roundtrip boolResultOracle now0 0 next0 (.bool true) rfl rfl).1,
   (claim_C6_success_roundtrip boolResultOracle now0 0 next0 (.bool true) rfl rfl).2 rfl⟩

/-- Counterexample to C6 as stated: a handler that returns the bare string
`"true"` gets it sent verbatim as the POST body, and that body deserializes
(as JSON) to the boolean `true`, which is not equal to the returned value. -/
theorem claim_C6_counterexample :
    (iterEvents strResultOracle now0 0).filter (isRespPost 0)
      = [.postReq 0 "r0" .response "true"]
    ∧ parseJson "true" = some (.bool true)
    ∧ Json.bool true ≠ Json.str "true" := by
  refine ⟨rfl, rfl, ?_⟩
  intro h
  cases h

/-- C7: evaluation at the failing input.  A poll response with no request-id
header does not make the poll step fail: the `!` assertion is erased at
runtime, `getNext` returns normally with a null request id, and the loop
dispatches and reports against the interpolated path segment "null". -/
theorem claim_C7_missing_request_id :
    getNext 0 (.response hdrsNoRid "7") = some
      { requestId := none, invokedArn := none, deadlineMs := some 9000,
        clientContext := none, identity := none, event := .num 7 }
    ∧ runTrace noRidOracle now0 1 0 = [.pollReq 0, .postReq 0 "null" .response "ok"] :=
  ⟨rfl, rfl⟩

/-- C8: for every constructed context with a numeric deadline,
`getRemainingTimeInMillis()` at time `t` is `max 0 (deadlineMs - t)`; it is
never negative and is non-increasing as the query time grows. -/
theorem claim_C8_remaining_time (env : Env) (base : NextInvocation) (d t t' : Int)
    (hd : base.deadlineMs = some d) (ht : t ≤ t') :
    (buildContext env base).getRemainingTimeInMillis t = some (max 0 (d - t))
    ∧ (∀ r, (buildContext env base).getRemainingTimeInMillis t = some r → 0 ≤ r)
    ∧ (∀ r r', (buildContext env base).getRemainingTimeInMillis t = some r →
        (buildContext env base).getRemainingTimeInMillis t' = some r' → r' ≤ r) := by
  have hb : (buildContext env base).deadlineMs = some d := hd
  refine ⟨?_, ?_, ?_⟩
  · rw [Context.getRemainingTimeInMillis, hb]
    rfl
  · intro r hr
    rw [Context.getRemainingTimeInMillis, hb] at hr
    simp only [Option.map_some', Option.some.injEq] at hr
    rw [← hr]
    exact le_max_left 0 _
  · intro r r' hr hr'
    rw [Context.getRemainingTimeInMillis, hb] at hr hr'
    simp only [Option.map_some', Option.some.injEq] at hr hr'
    rw [← hr, ← hr']
    exact max_le_max (le_refl 0) (by omega)

/-- Witness for C8 at a concrete context and query times. -/
theorem claim_C8_witness :
    (buildContext env0 next5000).getRemainingTimeInMillis 1000
      = some (max 0 (5000 - 1000)) :=
  (claim_C8_remaining_time env0 next5000 5000 1000 2000 rfl (by norm_num)).1

/-- C9: when the deadline header is absent, the decoded deadline is exactly
the poll-time clock plus 3000 ms (the stringified default re-parsed by
`Number`), so `getRemainingTimeInMillis()` at the poll instant is exactly
3000, and at any later instant it is between 0 and 3000. -/
theorem claim_C9_deadline_default (now : Int) (h : Headers) (body : String)
    (next : NextInvocation) (env : Env)
    (hdl : h.deadlineMs = none)
    (hn : getNext now (.response h body) = some next) :
    next.deadlineMs = some (now + 3000)
    ∧ (buildContext env next).getRemainingTimeInMillis now = some 3000
    ∧ (∀ t r, now ≤ t →
        (buildContext env next).getRemainingTimeInMillis t = some r →
        0 ≤ r ∧ r ≤ 3000) := by
  have hdm : next.deadlineMs = some (now + 3000) := by
    rw [getNext] at hn
    rcases hpe : parseJson body with _ | ev
    · rw [hpe] at hn
      cases hn
    · rw [hpe] at hn
      rcases hcc : parseOptHeader h.clientContext with _ | cc
      · rw [hcc] at hn
        cases hn
      · rw [hcc] at hn
        rcases hid : parseOptHeader h.identity with _ | idn
        · rw [hid] at hn
          cases hn
        · rw [hid] at hn
          dsimp only at hn
          rw [← Option.some.inj hn]
          dsimp only
          rw [hdl]
          exact jsNumber_intChars (now + 3000)
  have hb : (buildContext env next).deadlineMs = some (now + 3000) := hdm
  refine ⟨hdm, ?_, ?_⟩
  · rw [Context.getRemainingTimeInMillis, hb]
    simp
  · intro t r htr hr
    rw [Context.getRemainingTimeInMillis, hb] at hr
    simp only [Option.map_some', Option.some.injEq] at hr
    rw [← hr]
    constructor
    · exact le_max_left 0 _
    · exact max_le (by norm_num) (by omega)

/-- Witness for C9 at a deadline-less poll response decoded at clock 5. -/
theorem claim_C9_witness :
    next9.deadlineMs = some (5 + 3000)
    ∧ (buildContext env0 next9).getRemainingTimeInMillis 5 = some 3000 :=
  ⟨(claim_C9_deadline_default 5 hdrsNoDl "7" next9 env0 rfl rfl).1,
   (claim_C9_deadline_default 5 hdrsNoDl "7" next9 env0 rfl rfl).2.1⟩

/-- C10 (amended): when the handler of a reached invocation succeeds but the
response-endpoint POST rejects, the `catch` issues exactly one POST to the
error endpoint of the same request id whose body is the `ErrorPayload`
derived from the delivery failure; the loop then proceeds to the next poll
iff that error-endpoint POST does not itself fail (if it fails, the loop
terminates). -/
theorem claim_C10_delivery_failure_report (orc : Oracle) (now : Nat → Int) (i : Nat)
    (next : NextInvocation) (out : Json) (e : JsValue)
    (hn : getNext (now i) (orc.fetches i) = some next)
    (hh : orc.handler i = .ok out) (hr : orc.respondFail i = some e) :
    (iterEvents orc now i).filter (isErrPost i)
      = [.postReq i (ridString next.requestId) .error
          (postBody (payloadJson (toErrorPayload e)))]
    ∧ (orc.respondErrorFails i = false → iterContinues orc now i = true)
    ∧ (orc.respondErrorFails i = true → iterContinues orc now i = false) := by
  refine ⟨?_, ?_, ?_⟩
  · simp [iterEvents, hn, iterReports, hh, hr, isErrPost]
  · intro hf
    simp [iterContinues, hn, iterReports, hh, hr, hf]
  · intro hf
    simp [iterContinues, hn, iterReports, hh, hr, hf]

/-- Witness for C10 at a run whose response POST fails and whose error POST
succeeds. -/
theorem claim_C10_witness :
    (iterEvents respFailOracle now0 0).filter (isErrPost 0)
      = [.postReq 0 "r0" .error (postBody (payloadJson (toErrorPayload errBoom)))]
    ∧ iterContinues respFailOracle now0 0 = true :=
  ⟨(claim_C10_delivery_failure_report respFailOracle now0 0 next0
      (.str "ok") errBoom rfl rfl rfl).1,
   (claim_C10_delivery_failure_report respFailOracle now0 0 next0
      (.str "ok") errBoom rfl rfl rfl).2.1 rfl⟩

/-- Counterexample to C10 as stated: when the error-endpoint POST also fails,
that POST is issued but the runtime does not proceed to poll for the next
invocation — the loop ends with the failed error report. -/
theorem claim_C10_counterexample :
    runTrace dualFailOracle now0 2 0 =
      [.pollReq 0, .postReq 0 "r0" .response "ok",
       .postReq 0 "r0" .error (postBody (payloadJson (toErrorPayload errBoom)))]
    ∧ TraceEvent.pollReq 1 ∉ runTrace dualFailOracle now0 2 0 :=
  ⟨rfl, by decide⟩
